import Mathlib

/-!
Verification of the job-monitoring pipeline of this repository
(`src/services/monitoring/job_monitor.py` and
`src/services/monitoring/websocket.py`).

The Python code is embedded shallowly:

* A Python job dict is a `Job` record; `job.get(k)` returning `None`
  (key missing or stored as `None`) is `Option.none`.
* A Python `dict` is an association list `List (String × _)`; insertion
  updates the first matching key in place (Python dicts keep insertion
  order and overwrite on re-assignment) and otherwise appends.
* A Python `set` of websocket handles is a `List Nat` kept duplicate-free
  by a membership-checking `add`.
* Exceptions raised by publishing to Redis are modelled with `Except`:
  a failing publish aborts the rest of `_poll_job_status` (the exception
  is caught only in `start_monitoring`'s loop), which is exactly what the
  control flow of the Python does.
* `_store_status_history` is a logging stub in the source (it stores
  nothing), so persistence has no observable effect in the model.
* Wall-clock timestamps and logging are irrelevant to every claim and are
  omitted from the event records.
-/

set_option autoImplicit false

namespace PyDict

/-!
Generic model of a Python `dict` with `String` keys: an association list
in insertion order, in which assignment to an existing key overwrites in
place and assignment to a fresh key appends.
-/

variable {α : Type}

/-- Lookup: the first entry with the given key. -/
def get (m : List (String × α)) (k : String) : Option α :=
  match m with
  | [] => none
  | (k', v) :: rest => if k' = k then some v else get rest k

/-- Assignment `d[k] = v`: overwrite the entry holding the key in place
when present (a dict holds at most one), else append. -/
def set (m : List (String × α)) (k : String) (v : α) : List (String × α) :=
  match m with
  | [] => [(k, v)]
  | (k', v') :: rest => if k' = k then (k, v) :: rest else (k', v') :: set rest k v

/-- Deletion `del d[k]`: remove the entry holding the key (on a dict,
whose keys are unique, removing every matching entry is the same thing). -/
def del (m : List (String × α)) (k : String) : List (String × α) :=
  m.filter (fun p => p.1 ≠ k)

end PyDict

namespace JobMonitor

/-- Embedding of one job dict as returned by `client.plan.query_job_streams()`.
Each field is `Option String`: `none` models `job.get(k) is None`
(missing key or an explicit `None` value). -/
structure Job where
  jobStreamName : Option String
  status : Option String
  jid : Option String
  workstationName : Option String
deriving DecidableEq, Repr

/-- Embedding of the `JobStatusEvent` dataclass (lines 13-27 of
`job_monitor.py`); the `timestamp`, `duration` and `error_message` fields
play no role in any claim and are dropped. -/
structure JobStatusEvent where
  job_id : Option String
  job_name : Option String
  old_status : String
  new_status : String
  workstation : String
deriving DecidableEq, Repr

/-- Embedding of the alert payload built in `_check_alert_rules`
(lines 130-141): the fields of `alert_data["data"]` that are not constant
strings or timestamps. `severity` is always `"HIGH"` and `title` always
`"Job Failure"` in the source; they are kept to mirror the payload. -/
structure AlertEvent where
  severity : String
  title : String
  job_name : Option String
  status : String
  workstation : String
deriving DecidableEq, Repr

/-- Python truthiness of `job.get('jobStreamName')`: `None` and the empty
string are falsy, every other string is truthy. -/
def truthyStr : Option String → Bool
  | none => false
  | some s => s ≠ ""

/-- The snapshot cache `self.job_cache`: a Python dict from job-stream name
to job dict, embedded as an association list. -/
abbrev Cache := List (String × Job)

/-- Python `d[k]`-style lookup: first entry with the given key. -/
def alistGet (m : Cache) (k : String) : Option Job :=
  PyDict.get m k

/-- Python `d[k] = v`: overwrite the entry in place when the key is
present, append otherwise. -/
def alistInsert (m : Cache) (k : String) (v : Job) : Cache :=
  PyDict.set m k v

/-- Line 73 of `job_monitor.py`:
`new_cache = {job.get('jobStreamName'): job for job in current_jobs if job.get('jobStreamName')}`.
Records whose `jobStreamName` is missing, `None` or `""` are skipped. -/
def buildCache (jobs : List Job) : Cache :=
  jobs.foldl
    (fun m j =>
      match j.jobStreamName with
      | some n => if n ≠ "" then alistInsert m n j else m
      | none => m)
    []

/-- Embedding of `_process_job_update` (lines 88-98) as the pure event it
constructs: `job_id = job.get('id', job.get('jobStreamName'))`,
`old_status = old.get('status', 'NEW') if old else 'NEW'`,
`new_status = job.get('status', 'UNKNOWN')`,
`workstation = job.get('workstationName', '')`. -/
def process_job_update (j : Job) (old : Option Job) : JobStatusEvent :=
  { job_id := j.jid <|> j.jobStreamName
    job_name := j.jobStreamName
    old_status := match old with
      | some oj => oj.status.getD "NEW"
      | none => "NEW"
    new_status := j.status.getD "UNKNOWN"
    workstation := j.workstationName.getD "" }

/-- The diff decision for one entry of `new_cache` (lines 76-83): a job
already cached emits an event exactly when the raw status strings differ
(Python `old_job.get('status') != job_data.get('status')`, an exact
comparison of optional strings); a job absent from the cache always emits
an event with no prior snapshot. -/
def diffEntry (cache : Cache) (p : String × Job) : Option JobStatusEvent :=
  match alistGet cache p.1 with
  | some oj =>
      if oj.status ≠ p.2.status then some (process_job_update p.2 (some oj)) else none
  | none => some (process_job_update p.2 none)

/-- The events one poll cycle emits, in the iteration order of
`new_cache.items()`. -/
def diffEvents (cache : Cache) (newCache : Cache) : List JobStatusEvent :=
  newCache.filterMap (diffEntry cache)

/-- Line 128 of `job_monitor.py`: `critical_statuses = ['ABEND', 'ERROR', 'FAIL']`. -/
def critical_statuses : List String := ["ABEND", "ERROR", "FAIL"]

/-- Embedding of `_check_alert_rules` (lines 126-142): at most one alert,
produced exactly when the new status is critical and the old one is not. -/
def check_alert_rules (e : JobStatusEvent) : Option AlertEvent :=
  if e.new_status ∈ critical_statuses ∧ e.old_status ∉ critical_statuses then
    some { severity := "HIGH", title := "Job Failure", job_name := e.job_name,
           status := e.new_status, workstation := e.workstation }
  else none

/-- Effects a cycle has visibly performed so far: alerts published to the
`alert_notifications` channel and updates published to `job_updates`. -/
structure CycleState where
  alertsSent : List AlertEvent
  updatesSent : List JobStatusEvent
deriving DecidableEq, Repr

/-- Embedding of `_handle_status_change` for one event, with the fallibility
of the two Redis publishes made explicit: `aOk` tells whether publishing a
given alert succeeds, `uOk` whether publishing a given realtime update
succeeds. `_store_status_history` is a stub and has no effect. The source
publishes the alert (inside `_check_alert_rules`) before the realtime
update; a raised exception aborts the handler (`Except.error`), carrying
the effects already performed. -/
def handleEvent (aOk : AlertEvent → Bool) (uOk : JobStatusEvent → Bool)
    (s : CycleState) (e : JobStatusEvent) : Except CycleState CycleState :=
  match check_alert_rules e with
  | some a =>
      if aOk a then
        let s' : CycleState := { s with alertsSent := s.alertsSent ++ [a] }
        if uOk e then Except.ok { s' with updatesSent := s'.updatesSent ++ [e] }
        else Except.error s'
      else Except.error s
  | none =>
      if uOk e then Except.ok { s with updatesSent := s.updatesSent ++ [e] }
      else Except.error s

/-- The per-event loop of `_poll_job_status` (lines 76-83): events are
handled in order; the first exception aborts the loop. -/
def runEvents (aOk : AlertEvent → Bool) (uOk : JobStatusEvent → Bool) :
    CycleState → List JobStatusEvent → Except CycleState CycleState
  | s, [] => Except.ok s
  | s, e :: rest =>
      match handleEvent aOk uOk s e with
      | Except.ok s' => runEvents aOk uOk s' rest
      | Except.error s' => Except.error s'

/-- Observable outcome of one call to `_poll_job_status`: the cache after
the call and the events actually published on each channel. -/
structure CycleResult where
  cache : Cache
  alertsSent : List AlertEvent
  updatesSent : List JobStatusEvent
deriving DecidableEq, Repr

/-- Embedding of `_poll_job_status` (lines 63-86). `query` is the outcome
of `client.plan.query_job_streams()`: on failure the method returns at
line 71 with nothing touched. On success the new cache is built, each
changed job is processed, and only after the whole loop finishes does
line 85 run `self.job_cache = new_cache`; an exception escaping the loop
(a failed publish) skips that assignment and is caught by
`start_monitoring`, so the cache keeps its old value. -/
def poll_job_status (cache : Cache) (query : Except Unit (List Job))
    (aOk : AlertEvent → Bool) (uOk : JobStatusEvent → Bool) : CycleResult :=
  match query with
  | Except.error _ => { cache := cache, alertsSent := [], updatesSent := [] }
  | Except.ok jobs =>
      let newCache := buildCache jobs
      let evs := diffEvents cache newCache
      match runEvents aOk uOk { alertsSent := [], updatesSent := [] } evs with
      | Except.ok s => { cache := newCache, alertsSent := s.alertsSent, updatesSent := s.updatesSent }
      | Except.error s => { cache := cache, alertsSent := s.alertsSent, updatesSent := s.updatesSent }

/-- Success of handling one event: the alert publish (if an alert fires)
and the realtime-update publish both go through. `handleEvent` returns
`Except.ok` exactly when this holds. -/
def eventOk (aOk : AlertEvent → Bool) (uOk : JobStatusEvent → Bool) (e : JobStatusEvent) : Bool :=
  match check_alert_rules e with
  | some a => aOk a && uOk e
  | none => uOk e

/-- Sample job-stream snapshot named `JOB_A` with a given status, used by
concrete witnesses. -/
def jobA (st : String) : Job :=
  { jobStreamName := some "JOB_A", status := some st,
    jid := some "123", workstationName := some "CPU1" }

/-- Case folding used to state case-insensitive equality of status
strings: every character of the string lowered. Two strings are equal up
to letter case exactly when their foldings agree. -/
def foldCase (s : String) : List Char :=
  s.data.map Char.toLower

end JobMonitor

namespace WebSocketMgr

/-!
Embedding of `WebSocketManager` (`src/services/monitoring/websocket.py`).
Websocket handles are `Nat`; the message argument is irrelevant to the
claims (every send carries the same message) and is dropped. Whether a
given handle's `send_json` raises is the parameter `sendOk`.
-/

/-- The `self.active_connections : Dict[str, Set[WebSocket]]` map: a dict
from user id to a duplicate-free list modelling the Python set. -/
abbrev Registry := List (String × List Nat)

/-- Python `d.get(k)`-style lookup on the registry. -/
def regGet (reg : Registry) (uid : String) : Option (List Nat) :=
  PyDict.get reg uid

/-- Python `d[k] = v` on the registry: overwrite in place, else append. -/
def regSet (reg : Registry) (uid : String) (v : List Nat) : Registry :=
  PyDict.set reg uid v

/-- Python `del d[k]`. -/
def regDel (reg : Registry) (uid : String) : Registry :=
  PyDict.del reg uid

/-- Python `set.add`: no-op when already present, else append. -/
def setAdd (s : List Nat) (x : Nat) : List Nat :=
  if x ∈ s then s else s ++ [x]

/-- Python `set.discard`: remove the element if present. -/
def setDiscard (s : List Nat) (x : Nat) : List Nat :=
  s.filter (fun y => y ≠ x)

/-- Embedding of `WebSocketManager.connect` (lines 23-29): create an empty
set for a new user id, then add the websocket to the user's set. The
`websocket.accept()` transport call does not touch the registry. -/
def connect (reg : Registry) (ws : Nat) (uid : String) : Registry :=
  let reg' := if (regGet reg uid).isSome then reg else regSet reg uid []
  match regGet reg' uid with
  | some s => regSet reg' uid (setAdd s ws)
  | none => reg'

/-- Embedding of `WebSocketManager.disconnect` (lines 31-37): discard the
handle; delete the user's entry when its set becomes empty. -/
def disconnect (reg : Registry) (ws : Nat) (uid : String) : Registry :=
  match regGet reg uid with
  | none => reg
  | some s =>
      let s' := setDiscard s ws
      if s' = [] then regDel reg uid else regSet reg uid s'

/-- Embedding of `WebSocketManager.send_personal_message` (lines 39-51):
iterate over the user's handle set attempting a send on each; handles
whose send raises are collected and disconnected afterwards. Returns the
registry after cleanup and the list of handles that received the message. -/
def send_personal_message (sendOk : Nat → Bool) (reg : Registry) (uid : String) :
    Registry × List Nat :=
  match regGet reg uid with
  | none => (reg, [])
  | some s =>
      let delivered := s.filter sendOk
      let disconnected := s.filter (fun w => ¬ sendOk w)
      (disconnected.foldl (fun r w => disconnect r w uid) reg, delivered)

/-- The loop body of `WebSocketManager.broadcast` over an explicit list of
user ids (the snapshot `list(self.active_connections.keys())` taken at
line 56). Returns the final registry and the delivered `(uid, handle)`
pairs in send order. -/
def broadcastOver (sendOk : Nat → Bool) : Registry → List String → Registry × List (String × Nat)
  | reg, [] => (reg, [])
  | reg, uid :: rest =>
      let r1 := send_personal_message sendOk reg uid
      let r2 := broadcastOver sendOk r1.1 rest
      (r2.1, r1.2.map (fun w => (uid, w)) ++ r2.2)

/-- Embedding of `WebSocketManager.broadcast` (lines 53-57): the key list
is snapshotted from the registry before any send. -/
def broadcast (sendOk : Nat → Bool) (reg : Registry) : Registry × List (String × Nat) :=
  broadcastOver sendOk reg (reg.map Prod.fst)

/-- The spec's Connection Registry invariant: a user id key exists exactly
when its handle set is non-empty. In the association-list model a handle
set exists only under a key, so the content of the invariant is that no
entry holds an empty set. -/
def RegistryInv (reg : Registry) : Prop :=
  ∀ p ∈ reg, p.2 ≠ ([] : List Nat)

/-- Dict keys are unique (always true of a Python dict). -/
def KeysNodup (reg : Registry) : Prop :=
  (reg.map Prod.fst).Nodup

/-- All handle sets are duplicate-free (always true of a Python set). -/
def SetsNodup (reg : Registry) : Prop :=
  ∀ p ∈ reg, (p.2 : List Nat).Nodup

/-- Membership of a handle for a given viewer in the registry. -/
def wsRegistered (reg : Registry) (uid : String) (ws : Nat) : Prop :=
  ∃ s, regGet reg uid = some s ∧ ws ∈ s

instance : DecidablePred (RegistryInv) := fun reg =>
  inferInstanceAs (Decidable (∀ p ∈ reg, p.2 ≠ ([] : List Nat)))

instance : DecidablePred (KeysNodup) := fun reg =>
  inferInstanceAs (Decidable ((reg.map Prod.fst).Nodup))

instance : DecidablePred (SetsNodup) := fun reg =>
  inferInstanceAs (Decidable (∀ p ∈ reg, (p.2 : List Nat).Nodup))

instance (reg : Registry) (uid : String) (ws : Nat) : Decidable (wsRegistered reg uid ws) :=
  inferInstanceAs (Decidable (∃ s, regGet reg uid = some s ∧ ws ∈ s))

end WebSocketMgr

namespace PyDict

variable {α : Type}

theorem get_eq_none_iff (m : List (String × α)) (k : String) :
    get m k = none ↔ ∀ p ∈ m, p.1 ≠ k := by
  induction m with
  | nil => simp [get]
  | cons hd tl ih =>
      obtain ⟨k', v⟩ := hd
      by_cases h : k' = k <;> simp [get, h, ih]

theorem get_mem {m : List (String × α)} {k : String} {v : α}
    (h : get m k = some v) : (k, v) ∈ m := by
  induction m with
  | nil => simp [get] at h
  | cons hd tl ih =>
      obtain ⟨k', v'⟩ := hd
      by_cases hk : k' = k
      · subst hk
        simp only [get, eq_self_iff_true, if_true, Option.some.injEq] at h
        subst h
        exact List.mem_cons_self _ _
      · simp only [get, if_neg hk] at h
        exact List.mem_cons_of_mem _ (ih h)

theorem get_of_mem_nodup {m : List (String × α)} {k : String} {v : α}
    (hnd : (m.map Prod.fst).Nodup) (h : (k, v) ∈ m) : get m k = some v := by
  induction m with
  | nil => simp at h
  | cons hd tl ih =>
      obtain ⟨k', v'⟩ := hd
      simp only [List.map_cons, List.nodup_cons] at hnd
      rcases List.mem_cons.mp h with h1 | h1
      · obtain ⟨hk, hv⟩ := Prod.mk.injEq .. ▸ h1
        subst hk
        simp [get, hv]
      · have hk : k' ≠ k := by
          intro he
          subst he
          exact hnd.1 (List.mem_map.mpr ⟨(k', v), h1, rfl⟩)
        simpa [get, hk] using ih hnd.2 h1

theorem get_set_self (m : List (String × α)) (k : String) (v : α) :
    get (set m k v) k = some v := by
  induction m with
  | nil => simp [get, set]
  | cons hd tl ih =>
      obtain ⟨k', v'⟩ := hd
      by_cases hk : k' = k
      · simp [set, hk, get]
      · simp [set, hk, get, ih]

theorem get_set_other (m : List (String × α)) (k k' : String) (v : α) (h : k' ≠ k) :
    get (set m k v) k' = get m k' := by
  induction m with
  | nil => simp [get, set, Ne.symm h]
  | cons hd tl ih =>
      obtain ⟨k'', v''⟩ := hd
      by_cases hk : k'' = k
      · subst hk
        simp [set, get, Ne.symm h]
      · by_cases hk' : k'' = k'
        · subst hk'
          simp [set, hk, get]
        · simp [set, hk, get, hk', ih]

theorem get_del_self (m : List (String × α)) (k : String) :
    get (del m k) k = none := by
  rw [get_eq_none_iff]
  intro p hp
  simpa using List.of_mem_filter hp

theorem get_del_other (m : List (String × α)) (k k' : String) (h : k' ≠ k) :
    get (del m k) k' = get m k' := by
  induction m with
  | nil => simp [del, get]
  | cons hd tl ih =>
      obtain ⟨k'', v''⟩ := hd
      by_cases hk : k'' = k
      · subst hk
        have : del ((k'', v'') :: tl) k'' = del tl k'' := by
          simp [del, List.filter]
        rw [this, ih]
        simp [get, Ne.symm h]
      · have : del ((k'', v'') :: tl) k = (k'', v'') :: del tl k := by
          simp [del, List.filter, hk]
        rw [this]
        by_cases hk' : k'' = k'
        · simp [get, hk']
        · simp [get, hk', ih]

theorem mem_set {m : List (String × α)} {k : String} {v : α} {p : String × α}
    (h : p ∈ set m k v) : p = (k, v) ∨ p ∈ m := by
  induction m with
  | nil => simpa [set] using h
  | cons hd tl ih =>
      obtain ⟨k', v'⟩ := hd
      by_cases hk : k' = k
      · simp only [set, if_pos hk, List.mem_cons] at h
        rcases h with h | h
        · exact Or.inl h
        · exact Or.inr (List.mem_cons_of_mem _ h)
      · simp only [set, if_neg hk, List.mem_cons] at h
        rcases h with h | h
        · exact Or.inr (List.mem_cons.mpr (Or.inl h))
        · rcases ih h with h' | h'
          · exact Or.inl h'
          · exact Or.inr (List.mem_cons_of_mem _ h')

theorem mem_del {m : List (String × α)} {k : String} {p : String × α}
    (h : p ∈ del m k) : p ∈ m :=
  List.mem_of_mem_filter h

theorem keys_set_of_isSome {m : List (String × α)} {k : String} (v : α)
    (h : (get m k).isSome) :
    (set m k v).map Prod.fst = m.map Prod.fst := by
  induction m with
  | nil => simp [get] at h
  | cons hd tl ih =>
      obtain ⟨k', v'⟩ := hd
      by_cases hk : k' = k
      · simp [set, hk]
      · simp only [get, if_neg hk] at h
        simp [set, hk, ih h]

theorem keys_set_of_none {m : List (String × α)} {k : String} (v : α)
    (h : get m k = none) :
    (set m k v).map Prod.fst = m.map Prod.fst ++ [k] := by
  induction m with
  | nil => simp [set]
  | cons hd tl ih =>
      obtain ⟨k', v'⟩ := hd
      by_cases hk : k' = k
      · simp [get, hk] at h
      · simp only [get, if_neg hk] at h
        simp [set, hk, ih h]

theorem nodup_keys_set {m : List (String × α)} {k : String} (v : α)
    (h : (m.map Prod.fst).Nodup) : ((set m k v).map Prod.fst).Nodup := by
  cases hs : get m k with
  | some v' => rw [keys_set_of_isSome v (by simp [hs])]; exact h
  | none =>
      rw [keys_set_of_none v hs]
      refine List.Nodup.append h (List.nodup_singleton _) ?_
      intro a ha hb
      rcases List.mem_map.mp ha with ⟨p, hp, he⟩
      rw [List.mem_singleton] at hb
      exact (get_eq_none_iff m k).mp hs p hp (he.trans hb)

theorem keys_del (m : List (String × α)) (k : String) :
    (del m k).map Prod.fst = (m.map Prod.fst).filter (fun x => x ≠ k) := by
  induction m with
  | nil => simp [del]
  | cons hd tl ih =>
      obtain ⟨k', v'⟩ := hd
      by_cases hk : k' = k
      · simpa [del, List.filter, hk] using ih
      · simpa [del, List.filter, hk] using ih

theorem nodup_keys_del {m : List (String × α)} (k : String)
    (h : (m.map Prod.fst).Nodup) : ((del m k).map Prod.fst).Nodup := by
  rw [keys_del]
  exact List.Nodup.filter _ h

end PyDict


namespace JobMonitor

/-- Every step of the cache-building fold preserves duplicate-freeness of
the keys; a Python dict never holds a key twice. -/
theorem buildCache_keys_nodup (jobs : List Job) :
    ((buildCache jobs).map Prod.fst).Nodup := by
  suffices h : ∀ m : Cache, (m.map Prod.fst).Nodup →
      ((jobs.foldl
        (fun m j =>
          match j.jobStreamName with
          | some n => if n ≠ "" then alistInsert m n j else m
          | none => m) m).map Prod.fst).Nodup by
    exact h [] (by simp)
  induction jobs with
  | nil => intro m hm; simpa using hm
  | cons j rest ih =>
      intro m hm
      simp only [List.foldl_cons]
      apply ih
      cases hn : j.jobStreamName with
      | none => simpa using hm
      | some n =>
          by_cases he : n = ""
          · simp [he, hm]
          · simpa [he] using @PyDict.nodup_keys_set _ m n j hm

/-- Every entry the cache-building fold produces is keyed by its own job's
stream name, which is non-empty. -/
theorem buildCache_mem_name (jobs : List Job) :
    ∀ p ∈ buildCache jobs, p.2.jobStreamName = some p.1 ∧ p.1 ≠ "" := by
  suffices h : ∀ m : Cache, (∀ p ∈ m, p.2.jobStreamName = some p.1 ∧ p.1 ≠ "") →
      ∀ p ∈ (jobs.foldl
        (fun m j =>
          match j.jobStreamName with
          | some n => if n ≠ "" then alistInsert m n j else m
          | none => m) m), p.2.jobStreamName = some p.1 ∧ p.1 ≠ "" by
    exact h [] (by simp)
  induction jobs with
  | nil => intro m hm; simpa using hm
  | cons j rest ih =>
      intro m hm
      simp only [List.foldl_cons]
      apply ih
      intro p hp
      cases hn : j.jobStreamName with
      | none => exact hm p (by simpa [hn] using hp)
      | some n =>
          by_cases he : n = ""
          · exact hm p (by simpa [hn, he] using hp)
          · rw [hn] at hp
            simp only [he, ite_true, ne_eq, not_false_iff] at hp
            rcases PyDict.mem_set (by simpa using hp) with h1 | h1
            · subst h1; exact ⟨hn, he⟩
            · exact hm p h1

/-- Diffing a cache against itself emits nothing. -/
theorem diffEvents_self_eq_nil (m : Cache) (h : (m.map Prod.fst).Nodup) :
    diffEvents m m = [] := by
  rw [diffEvents, List.filterMap_eq_nil_iff]
  intro p hp
  obtain ⟨k, j⟩ := p
  have hg : alistGet m k = some j := PyDict.get_of_mem_nodup h hp
  simp [diffEntry, hg]

/-- C3: a poll cycle whose source query fails leaves the cache equal to its
pre-cycle value and publishes no StatusChangeEvent and no AlertEvent (the
cycle returns at line 71 before building a cache, diffing, persisting or
publishing anything; persistence is a stub in any case). -/
theorem poll_failure_isolation (cache : Cache)
    (aOk : AlertEvent → Bool) (uOk : JobStatusEvent → Bool) :
    poll_job_status cache (Except.error ()) aOk uOk =
      { cache := cache, alertsSent := [], updatesSent := [] } := rfl

/-- C6: polling again with the very snapshot list that produced the current
cache emits zero StatusChangeEvents, publishes zero AlertEvents, and leaves
the cache equal to its prior value. -/
theorem poll_idempotent (jobs : List Job)
    (aOk : AlertEvent → Bool) (uOk : JobStatusEvent → Bool) :
    poll_job_status (buildCache jobs) (Except.ok jobs) aOk uOk =
      { cache := buildCache jobs, alertsSent := [], updatesSent := [] } := by
  have hd : diffEvents (buildCache jobs) (buildCache jobs) = [] :=
    diffEvents_self_eq_nil _ (buildCache_keys_nodup jobs)
  simp [poll_job_status, hd, runEvents]

/-- C4: the alert rule fires exactly when the new status belongs to the
critical set `{ABEND, ERROR, FAIL}` and the old status does not; being an
`Option`, the evaluator produces at most one alert per event, so a
critical-to-critical transition produces none. -/
theorem alert_edge_trigger (e : JobStatusEvent) :
    (check_alert_rules e).isSome ↔
      ((e.new_status = "ABEND" ∨ e.new_status = "ERROR" ∨ e.new_status = "FAIL") ∧
       ¬(e.old_status = "ABEND" ∨ e.old_status = "ERROR" ∨ e.old_status = "FAIL")) := by
  constructor
  · intro h
    by_cases hc : e.new_status ∈ critical_statuses ∧ e.old_status ∉ critical_statuses
    · simpa [critical_statuses] using hc
    · simp [check_alert_rules, hc] at h
  · intro h
    have hc : e.new_status ∈ critical_statuses ∧ e.old_status ∉ critical_statuses := by
      simpa [critical_statuses] using h
    simp [check_alert_rules, hc]

/-- C5: a job with no prior snapshot always yields an event whose
`old_status` is the literal sentinel `"NEW"`, and since `"NEW"` is not in
the critical set, a job first observed already in a critical status does
produce an alert. -/
theorem new_job_sentinel (cache : Cache) (name : String) (j : Job)
    (h : alistGet cache name = none) :
    ∃ e, diffEntry cache (name, j) = some e ∧ e.old_status = "NEW" ∧
      (e.new_status ∈ critical_statuses → (check_alert_rules e).isSome) := by
  refine ⟨process_job_update j none, ?_, rfl, ?_⟩
  · simp [diffEntry, h]
  · intro hc
    have hcond : (process_job_update j none).new_status ∈ critical_statuses ∧
        (process_job_update j none).old_status ∉ critical_statuses := by
      refine ⟨hc, ?_⟩
      show ("NEW" : String) ∉ critical_statuses
      decide
    simp [check_alert_rules, hcond]

/-- Witness for C5 at the concrete input of the spec's end-to-end scenario:
a job discovered already in status `ABEND` with an empty prior cache. -/
theorem new_job_sentinel_witness :
    ∃ e, diffEntry [] ("JOB_A", jobA "ABEND") = some e ∧ e.old_status = "NEW" ∧
      (e.new_status ∈ critical_statuses → (check_alert_rules e).isSome) :=
  new_job_sentinel [] "JOB_A" (jobA "ABEND") rfl

/-- C10: a snapshot whose `jobStreamName` is missing (`None`) or empty is
silently dropped by the dict comprehension at line 73, so a poll cycle
behaves exactly as if the record had not been returned at all: same cache,
same published updates, same alerts. -/
theorem nameless_snapshot_excluded (cache : Cache) (jobs1 jobs2 : List Job) (j : Job)
    (aOk : AlertEvent → Bool) (uOk : JobStatusEvent → Bool)
    (h : j.jobStreamName = none ∨ j.jobStreamName = some "") :
    poll_job_status cache (Except.ok (jobs1 ++ j :: jobs2)) aOk uOk =
      poll_job_status cache (Except.ok (jobs1 ++ jobs2)) aOk uOk := by
  have hb : buildCache (jobs1 ++ j :: jobs2) = buildCache (jobs1 ++ jobs2) := by
    unfold buildCache
    rw [List.foldl_append, List.foldl_append, List.foldl_cons]
    rcases h with h | h <;> simp [h]
  simp [poll_job_status, hb]

/-- Witness for C10: a record with an empty stream name alongside a normal
record changes nothing about the cycle. -/
theorem nameless_snapshot_excluded_witness :
    poll_job_status [] (Except.ok ([jobA "EXEC"] ++
        { jobStreamName := some "", status := some "ABEND", jid := none,
          workstationName := none } :: [])) (fun _ => true) (fun _ => true) =
      poll_job_status [] (Except.ok ([jobA "EXEC"] ++ [])) (fun _ => true) (fun _ => true) :=
  nameless_snapshot_excluded [] [jobA "EXEC"] []
    { jobStreamName := some "", status := some "ABEND", jid := none, workstationName := none }
    (fun _ => true) (fun _ => true) (Or.inr rfl)

end JobMonitor


namespace JobMonitor

/-- Equation for `diffEntry` when the job is already cached. -/
theorem diffEntry_eq_of_get_some {cache : Cache} {p : String × Job} {oj : Job}
    (h : alistGet cache p.1 = some oj) :
    diffEntry cache p =
      if oj.status ≠ p.2.status then some (process_job_update p.2 (some oj)) else none := by
  unfold diffEntry
  rw [h]

/-- Equation for `diffEntry` when the job is new. -/
theorem diffEntry_eq_of_get_none {cache : Cache} {p : String × Job}
    (h : alistGet cache p.1 = none) :
    diffEntry cache p = some (process_job_update p.2 none) := by
  unfold diffEntry
  rw [h]

/-- Handling an event fails exactly when `eventOk` is false on it. -/
theorem handleEvent_error_of_not_eventOk (aOk : AlertEvent → Bool)
    (uOk : JobStatusEvent → Bool) (s : CycleState) (e : JobStatusEvent)
    (h : eventOk aOk uOk e = false) :
    ∃ s', handleEvent aOk uOk s e = Except.error s' := by
  cases hc : check_alert_rules e with
  | some a =>
      by_cases ha : aOk a
      · by_cases hu : uOk e
        · exfalso
          simp [eventOk, hc, ha, hu] at h
        · exact ⟨{ s with alertsSent := s.alertsSent ++ [a] },
            by simp [handleEvent, hc, ha, hu]⟩
      · exact ⟨s, by simp [handleEvent, hc, ha]⟩
  | none =>
      by_cases hu : uOk e
      · exfalso
        simp [eventOk, hc, hu] at h
      · exact ⟨s, by simp [handleEvent, hc, hu]⟩

/-- If handling any pending event fails, the per-event loop ends in an
uncaught exception. -/
theorem runEvents_error_of_exists (aOk : AlertEvent → Bool)
    (uOk : JobStatusEvent → Bool) (evs : List JobStatusEvent)
    (h : ∃ e ∈ evs, eventOk aOk uOk e = false) :
    ∀ s, ∃ s', runEvents aOk uOk s evs = Except.error s' := by
  induction evs with
  | nil => simp at h
  | cons e rest ih =>
      intro s
      rcases h with ⟨e', he', hfail⟩
      rcases List.mem_cons.mp he' with he'' | hmem
      · subst he''
        obtain ⟨s', hs'⟩ := handleEvent_error_of_not_eventOk aOk uOk s e' hfail
        exact ⟨s', by simp [runEvents, hs']⟩
      · cases hh : handleEvent aOk uOk s e with
        | ok s1 =>
            obtain ⟨s', hs'⟩ := ih ⟨e', hmem, hfail⟩ s1
            exact ⟨s', by simp [runEvents, hh, hs']⟩
        | error s1 => exact ⟨s1, by simp [runEvents, hh]⟩

/-- C2 amended: when the source query succeeds but publishing some pending
event to the bus raises, the exception escapes `_poll_job_status` before
line 85, so the Snapshot Cache is NOT replaced: it keeps its pre-cycle
value (the error is only caught by the `start_monitoring` loop). -/
theorem publish_failure_keeps_cache (cache : Cache) (jobs : List Job)
    (aOk : AlertEvent → Bool) (uOk : JobStatusEvent → Bool)
    (h : ∃ e ∈ diffEvents cache (buildCache jobs), eventOk aOk uOk e = false) :
    (poll_job_status cache (Except.ok jobs) aOk uOk).cache = cache := by
  obtain ⟨s', hs'⟩ :=
    runEvents_error_of_exists aOk uOk (diffEvents cache (buildCache jobs)) h
      { alertsSent := [], updatesSent := [] }
  simp [poll_job_status, hs']

/-- Witness for C2's amended statement: one new job, whose realtime-update
publish raises; the cache stays empty. -/
theorem publish_failure_keeps_cache_witness :
    (poll_job_status [] (Except.ok [jobA "EXEC"]) (fun _ => true) (fun _ => false)).cache = [] :=
  publish_failure_keeps_cache [] [jobA "EXEC"] (fun _ => true) (fun _ => false)
    ⟨process_job_update (jobA "EXEC") none, by decide, rfl⟩

/-- Counterexample to C2 as stated: the source query succeeds, one
StatusChangeEvent is pending, its publish to the bus raises — and the
cache is left at its pre-cycle value instead of being replaced with the
newly built snapshot map. -/
theorem publish_failure_counterexample :
    (diffEvents [] (buildCache [jobA "EXEC"])).length = 1 ∧
    (poll_job_status [] (Except.ok [jobA "EXEC"]) (fun _ => true) (fun _ => false)).cache ≠
      buildCache [jobA "EXEC"] := by
  constructor
  · rfl
  · decide

/-- Every event the diff engine emits is named after the job it concerns. -/
theorem diffEntry_job_name {cache : Cache} {p : String × Job} {e : JobStatusEvent}
    (h : diffEntry cache p = some e) : e.job_name = p.2.jobStreamName := by
  cases hg : alistGet cache p.1 with
  | some oj =>
      rw [diffEntry_eq_of_get_some hg] at h
      by_cases hs : oj.status ≠ p.2.status
      · rw [if_pos hs] at h
        cases h
        rfl
      · rw [if_neg hs] at h
        cases h
  | none =>
      rw [diffEntry_eq_of_get_none hg] at h
      cases h
      rfl

/-- C1 amended: the diff comparison is case-SENSITIVE. For a job name
present in both the old cache and the newly built snapshot map, the poll
cycle emits an event for that job exactly when the two raw status strings
differ as exact strings — so statuses equal up to letter case but with
different casing DO emit an event. -/
theorem diff_case_sensitive (cache : Cache) (jobs : List Job) (name : String)
    (oj nj : Job) (h1 : alistGet cache name = some oj)
    (h2 : alistGet (buildCache jobs) name = some nj) :
    (∃ e ∈ diffEvents cache (buildCache jobs), e.job_name = some name) ↔
      oj.status ≠ nj.status := by
  have hmem : (name, nj) ∈ buildCache jobs := PyDict.get_mem h2
  have hname := buildCache_mem_name jobs
  have hnd := buildCache_keys_nodup jobs
  constructor
  · rintro ⟨e, he, hn⟩
    rcases List.mem_filterMap.mp he with ⟨⟨k, j⟩, hkj, hde⟩
    have hj : j.jobStreamName = some k := (hname _ hkj).1
    have hk : k = name := by
      have hjn := diffEntry_job_name hde
      rw [hj, hn] at hjn
      injection hjn with hx
      exact hx.symm
    subst hk
    have hjnj : j = nj := by
      have hg : alistGet (buildCache jobs) k = some j := PyDict.get_of_mem_nodup hnd hkj
      rw [h2] at hg
      injection hg with hx
      exact hx.symm
    subst hjnj
    rw [@diffEntry_eq_of_get_some cache (k, j) oj h1] at hde
    by_cases hs : oj.status ≠ j.status
    · exact hs
    · rw [if_neg hs] at hde
      cases hde
  · intro hs
    refine ⟨process_job_update nj (some oj), ?_, ?_⟩
    · apply List.mem_filterMap.mpr
      refine ⟨(name, nj), hmem, ?_⟩
      rw [@diffEntry_eq_of_get_some cache (name, nj) oj h1, if_pos hs]
    · exact (hname _ hmem).1

/-- Witness for C1's amended statement: `PEND` cached, `EXEC` polled —
statuses differ as strings, one event is emitted for the job. -/
theorem diff_case_sensitive_witness :
    (∃ e ∈ diffEvents [("JOB_A", jobA "PEND")] (buildCache [jobA "EXEC"]),
      e.job_name = some "JOB_A") ↔
      (jobA "PEND").status ≠ (jobA "EXEC").status :=
  diff_case_sensitive [("JOB_A", jobA "PEND")] [jobA "EXEC"] "JOB_A"
    (jobA "PEND") (jobA "EXEC") rfl rfl

/-- Counterexample to C1 as stated: the cached status `"exec"` and the
polled status `"EXEC"` are equal up to letter case, yet the poll cycle
emits a StatusChangeEvent recording the transition `exec -> EXEC`, because
line 79 compares the raw strings with `!=`. -/
theorem diff_case_insensitive_counterexample :
    foldCase "exec" = foldCase "EXEC" ∧
    (∃ e ∈ diffEvents [("JOB_A", jobA "exec")] (buildCache [jobA "EXEC"]),
      e.job_name = some "JOB_A" ∧ e.old_status = "exec" ∧ e.new_status = "EXEC") := by
  refine ⟨by decide, ?_⟩
  exact ⟨process_job_update (jobA "EXEC") (some (jobA "exec")), by decide, rfl, rfl, rfl⟩

end JobMonitor

namespace PyDict

variable {α : Type}

theorem set_set_same (m : List (String × α)) (k : String) (v : α) :
    set (set m k v) k v = set m k v := by
  induction m with
  | nil => simp [set]
  | cons hd tl ih =>
      obtain ⟨k', v'⟩ := hd
      by_cases hk : k' = k
      · simp [set, hk]
      · simp [set, hk, ih]

theorem set_forall {P : String × α → Prop} {m : List (String × α)} {k : String} {v : α}
    (hm : ∀ p ∈ m, P p) (hv : P (k, v)) : ∀ p ∈ set m k v, P p := by
  induction m with
  | nil => simpa [set] using hv
  | cons hd tl ih =>
      obtain ⟨k', v'⟩ := hd
      by_cases hk : k' = k
      · intro p hp
        simp only [set, if_pos hk, List.mem_cons] at hp
        rcases hp with rfl | hp
        · exact hv
        · exact hm p (List.mem_cons_of_mem _ hp)
      · intro p hp
        simp only [set, if_neg hk, List.mem_cons] at hp
        rcases hp with rfl | hp
        · exact hm _ (List.mem_cons_self _ _)
        · exact ih (fun q hq => hm q (List.mem_cons_of_mem _ hq)) p hp

theorem set_eq_append_of_none {m : List (String × α)} {k : String} (v : α)
    (h : get m k = none) : set m k v = m ++ [(k, v)] := by
  induction m with
  | nil => simp [set]
  | cons hd tl ih =>
      obtain ⟨k', v'⟩ := hd
      have hk : k' ≠ k := by
        intro he
        subst he
        simp [get] at h
      simp only [get, if_neg hk] at h
      simp [set, hk, ih h]

theorem set_append_fresh (m : List (String × α)) (k : String) (v0 v : α)
    (h : get m k = none) : set (m ++ [(k, v0)]) k v = m ++ [(k, v)] := by
  induction m with
  | nil => simp [set]
  | cons hd tl ih =>
      obtain ⟨k', v'⟩ := hd
      have hk : k' ≠ k := by
        intro he
        subst he
        simp [get] at h
      simp only [get, if_neg hk] at h
      simp [set, hk, ih h]

end PyDict

namespace WebSocketMgr

/-- The handle-adding step never produces an empty set. -/
theorem setAdd_ne_nil (s : List Nat) (x : Nat) : setAdd s x ≠ [] := by
  unfold setAdd
  by_cases h : x ∈ s
  · simp only [if_pos h]
    intro he
    subst he
    simp at h
  · simp [if_neg h]

theorem setAdd_mem_self (s : List Nat) (x : Nat) : x ∈ setAdd s x := by
  unfold setAdd
  by_cases h : x ∈ s <;> simp [h]

theorem setAdd_of_mem {s : List Nat} {x : Nat} (h : x ∈ s) : setAdd s x = s := by
  simp [setAdd, h]

/-- Equation for `connect`: the user's current handle set (empty for a new
user id) gets the handle added, in place. -/
theorem connect_eq (reg : Registry) (ws : Nat) (uid : String) :
    connect reg ws uid = regSet reg uid (setAdd ((regGet reg uid).getD []) ws) := by
  cases hg : regGet reg uid with
  | some s =>
      unfold connect
      simp [hg]
  | none =>
      unfold connect
      have h1 : regGet (regSet reg uid []) uid = some [] := PyDict.get_set_self reg uid []
      simp only [hg, Option.isSome_none, Bool.false_eq_true, if_false, h1, Option.getD_none]
      rw [show regSet reg uid ([] : List Nat) = reg ++ [(uid, [])] from
        PyDict.set_eq_append_of_none [] hg]
      rw [show regSet (reg ++ [(uid, [])]) uid (setAdd [] ws) = reg ++ [(uid, setAdd [] ws)] from
        PyDict.set_append_fresh reg uid [] (setAdd [] ws) hg]
      exact (PyDict.set_eq_append_of_none (setAdd [] ws) hg).symm

/-- Equation for `disconnect` when the user id is unknown. -/
theorem disconnect_eq_of_none {reg : Registry} {ws : Nat} {uid : String}
    (h : regGet reg uid = none) : disconnect reg ws uid = reg := by
  unfold disconnect
  rw [h]

/-- Equation for `disconnect` when the user id is registered. -/
theorem disconnect_eq_of_some {reg : Registry} {ws : Nat} {uid : String} {s : List Nat}
    (h : regGet reg uid = some s) :
    disconnect reg ws uid =
      (if setDiscard s ws = [] then regDel reg uid else regSet reg uid (setDiscard s ws)) := by
  unfold disconnect
  rw [h]

/-- Equation for `send_personal_message` when the user id is unknown. -/
theorem spm_eq_of_none {sendOk : Nat → Bool} {reg : Registry} {uid : String}
    (h : regGet reg uid = none) : send_personal_message sendOk reg uid = (reg, []) := by
  unfold send_personal_message
  rw [h]

/-- Equation for `send_personal_message` when the user id is registered. -/
theorem spm_eq_of_some {sendOk : Nat → Bool} {reg : Registry} {uid : String} {s : List Nat}
    (h : regGet reg uid = some s) :
    send_personal_message sendOk reg uid =
      ((s.filter (fun w => ¬ sendOk w)).foldl (fun r w => disconnect r w uid) reg,
        s.filter sendOk) := by
  unfold send_personal_message
  rw [h]

/-- The registry invariant survives an in-place assignment of a non-empty
handle set. -/
theorem inv_regSet {reg : Registry} {uid : String} {v : List Nat}
    (hi : RegistryInv reg) (hv : v ≠ []) : RegistryInv (regSet reg uid v) :=
  PyDict.set_forall hi hv

/-- The registry invariant survives deleting a user id. -/
theorem inv_regDel {reg : Registry} (uid : String) (hi : RegistryInv reg) :
    RegistryInv (regDel reg uid) := fun p hp => hi p (PyDict.mem_del hp)

/-- The registry invariant survives `disconnect`. -/
theorem inv_disconnect {reg : Registry} (ws : Nat) (uid : String)
    (hi : RegistryInv reg) : RegistryInv (disconnect reg ws uid) := by
  cases hg : regGet reg uid with
  | none => rw [disconnect_eq_of_none hg]; exact hi
  | some s =>
      rw [disconnect_eq_of_some hg]
      by_cases he : setDiscard s ws = []
      · rw [if_pos he]
        exact inv_regDel uid hi
      · rw [if_neg he]
        exact inv_regSet hi he

/-- The registry invariant survives the cleanup loop that disconnects every
handle whose send failed. -/
theorem inv_foldDisconnect (uid : String) :
    ∀ (L : List Nat) (reg : Registry), RegistryInv reg →
      RegistryInv (L.foldl (fun r w => disconnect r w uid) reg) := by
  intro L
  induction L with
  | nil => intro reg hi; exact hi
  | cons w L ih =>
      intro reg hi
      exact ih _ (inv_disconnect w uid hi)

/-- C7: the Connection Registry invariant — a viewer_id key exists exactly
when its handle set is non-empty (in this model: no registered entry holds
an empty set) — holds for the empty registry and is preserved by
`connect`, by `disconnect`, and by the removal of handles that fail during
a send in `send_personal_message`. -/
theorem registry_invariant :
    RegistryInv ([] : Registry) ∧
    (∀ (reg : Registry) (ws : Nat) (uid : String),
      RegistryInv reg → RegistryInv (connect reg ws uid)) ∧
    (∀ (reg : Registry) (ws : Nat) (uid : String),
      RegistryInv reg → RegistryInv (disconnect reg ws uid)) ∧
    (∀ (sendOk : Nat → Bool) (reg : Registry) (uid : String),
      RegistryInv reg → RegistryInv (send_personal_message sendOk reg uid).1) := by
  refine ⟨?_, ?_, ?_, ?_⟩
  · intro p hp
    simp at hp
  · intro reg ws uid hi
    rw [connect_eq]
    exact inv_regSet hi (setAdd_ne_nil _ _)
  · intro reg ws uid hi
    exact inv_disconnect ws uid hi
  · intro sendOk reg uid hi
    cases hg : regGet reg uid with
    | none => rw [spm_eq_of_none hg]; exact hi
    | some s =>
        rw [spm_eq_of_some hg]
        exact inv_foldDisconnect uid _ reg hi

/-- Witness for C7 at concrete inputs: the invariant holds after a connect,
after a disconnect of the last handle, and after a send in which the only
handle fails and is removed. -/
theorem registry_invariant_witness :
    RegistryInv (connect [] 7 "A") ∧
    RegistryInv (disconnect (connect [] 7 "A") 7 "A") ∧
    RegistryInv (send_personal_message (fun _ => false) (connect [] 7 "A") "A").1 :=
  ⟨registry_invariant.2.1 [] 7 "A" registry_invariant.1,
   registry_invariant.2.2.1 (connect [] 7 "A") 7 "A"
     (registry_invariant.2.1 [] 7 "A" registry_invariant.1),
   registry_invariant.2.2.2 (fun _ => false) (connect [] 7 "A") "A"
     (registry_invariant.2.1 [] 7 "A" registry_invariant.1)⟩

end WebSocketMgr

namespace WebSocketMgr

/-- Adding a handle to a duplicate-free set leaves exactly one copy of it. -/
theorem setAdd_count_one {s : List Nat} {x : Nat} (hnd : s.Nodup) :
    (setAdd s x).count x = 1 := by
  unfold setAdd
  by_cases h : x ∈ s
  · rw [if_pos h]
    exact List.count_eq_one_of_mem hnd h
  · rw [if_neg h]
    rw [List.count_append]
    simp [List.count_eq_zero_of_not_mem h]

/-- C9: `connect` is idempotent per handle — a second identical connect
call leaves the registry exactly as the first left it (so no other entry
changes either), and the handle is present exactly once in the viewer's
handle set. -/
theorem connect_idempotent (reg : Registry) (ws : Nat) (uid : String)
    (hs : SetsNodup reg) :
    connect (connect reg ws uid) ws uid = connect reg ws uid ∧
    ∃ s', regGet (connect reg ws uid) uid = some s' ∧ s'.count ws = 1 := by
  rw [connect_eq reg ws uid]
  have hg1 : regGet (regSet reg uid (setAdd ((regGet reg uid).getD []) ws)) uid =
      some (setAdd ((regGet reg uid).getD []) ws) := PyDict.get_set_self reg uid _
  constructor
  · rw [connect_eq, hg1]
    show regSet _ uid (setAdd (setAdd ((regGet reg uid).getD []) ws) ws) = _
    rw [setAdd_of_mem (setAdd_mem_self _ ws)]
    exact PyDict.set_set_same reg uid _
  · refine ⟨setAdd ((regGet reg uid).getD []) ws, hg1, ?_⟩
    apply setAdd_count_one
    cases hg : regGet reg uid with
    | none => simp
    | some s =>
        simp only [hg, Option.getD_some]
        exact hs (uid, s) (PyDict.get_mem hg)

/-- Witness for C9: double-connecting handle 5 for viewer `A` on a registry
already holding handle 4. -/
theorem connect_idempotent_witness :
    connect (connect [("A", [4])] 5 "A") 5 "A" = connect [("A", [4])] 5 "A" ∧
    ∃ s', regGet (connect [("A", [4])] 5 "A") "A" = some s' ∧ s'.count 5 = 1 :=
  connect_idempotent [("A", [4])] 5 "A" (by decide)

end WebSocketMgr

namespace WebSocketMgr

/-- Registered handles of a viewer are exactly the members of the set the
registry holds for them. -/
theorem wsRegistered_iff {reg : Registry} {uid : String} {s : List Nat}
    (h : regGet reg uid = some s) (x : Nat) : wsRegistered reg uid x ↔ x ∈ s := by
  constructor
  · rintro ⟨s', hs', hx⟩
    rw [h] at hs'
    injection hs' with he
    exact he ▸ hx
  · intro hx
    exact ⟨s, h, hx⟩

theorem not_wsRegistered_of_none {reg : Registry} {uid : String}
    (h : regGet reg uid = none) (x : Nat) : ¬ wsRegistered reg uid x := by
  rintro ⟨s', hs', _⟩
  rw [h] at hs'
  cases hs'

/-- Disconnecting one viewer's handle never touches another viewer's entry. -/
theorem disconnect_get_other {reg : Registry} {ws : Nat} {uid uid' : String}
    (h : uid' ≠ uid) : regGet (disconnect reg ws uid) uid' = regGet reg uid' := by
  cases hg : regGet reg uid with
  | none => rw [disconnect_eq_of_none hg]
  | some s =>
      rw [disconnect_eq_of_some hg]
      by_cases he : setDiscard s ws = []
      · rw [if_pos he]
        exact PyDict.get_del_other reg uid uid' h
      · rw [if_neg he]
        exact PyDict.get_set_other reg uid uid' _ h

/-- The cleanup loop is a no-op for a viewer id with no entry. -/
theorem foldDisconnect_get_none {uid : String} :
    ∀ (L : List Nat) (reg : Registry), regGet reg uid = none →
      regGet (L.foldl (fun r w => disconnect r w uid) reg) uid = none := by
  intro L
  induction L with
  | nil => intro reg h; exact h
  | cons w L ih =>
      intro reg h
      simp only [List.foldl_cons]
      rw [disconnect_eq_of_none h] at *
      exact ih reg h

/-- The cleanup loop never touches another viewer's entry. -/
theorem foldDisconnect_get_other {uid uid' : String} (h : uid' ≠ uid) :
    ∀ (L : List Nat) (reg : Registry),
      regGet (L.foldl (fun r w => disconnect r w uid) reg) uid' = regGet reg uid' := by
  intro L
  induction L with
  | nil => intro reg; rfl
  | cons w L ih =>
      intro reg
      simp only [List.foldl_cons]
      rw [ih, disconnect_get_other h]

/-- After disconnecting every handle in `L` from a viewer's set `s`, a
handle is still registered for that viewer exactly when it was in `s` and
not in `L` (when the set empties on the way, its entry is deleted and
nothing remains registered). -/
theorem foldDisconnect_registered {uid : String} :
    ∀ (L : List Nat) (reg : Registry) (s : List Nat), regGet reg uid = some s →
      ∀ x, wsRegistered (L.foldl (fun r w => disconnect r w uid) reg) uid x ↔
        (x ∈ s ∧ x ∉ L) := by
  intro L
  induction L with
  | nil =>
      intro reg s h x
      simp [wsRegistered_iff h]
  | cons w L ih =>
      intro reg s h x
      simp only [List.foldl_cons]
      by_cases he : setDiscard s w = []
      · rw [disconnect_eq_of_some h, if_pos he]
        have hnone : regGet (regDel reg uid) uid = none := PyDict.get_del_self reg uid
        have hfin := foldDisconnect_get_none L (regDel reg uid) hnone
        constructor
        · intro hreg
          exact absurd hreg (not_wsRegistered_of_none hfin x)
        · rintro ⟨hxs, hxl⟩
          exfalso
          have hxne : x ≠ w := fun hxw => hxl (hxw ▸ List.mem_cons_self w L)
          have : x ∈ setDiscard s w := by
            simp [setDiscard, hxs, hxne]
          rw [he] at this
          simp at this
      · rw [disconnect_eq_of_some h, if_neg he]
        have hg' : regGet (regSet reg uid (setDiscard s w)) uid = some (setDiscard s w) :=
          PyDict.get_set_self reg uid _
        rw [ih _ _ hg' x]
        simp only [setDiscard, List.mem_filter, List.mem_cons, decide_eq_true_eq]
        constructor
        · rintro ⟨⟨hxs, hxw⟩, hxl⟩
          exact ⟨hxs, fun hc => hc.elim hxw (fun hin => hxl hin)⟩
        · rintro ⟨hxs, hxl⟩
          exact ⟨⟨hxs, fun hc => hxl (Or.inl hc)⟩, fun hin => hxl (Or.inr hin)⟩

/-- After `send_personal_message`, a handle of the target viewer is still
registered exactly when it was registered and its send succeeded. -/
theorem spm_registered {sendOk : Nat → Bool} {reg : Registry} {uid : String}
    {s : List Nat} (h : regGet reg uid = some s) (x : Nat) :
    wsRegistered (send_personal_message sendOk reg uid).1 uid x ↔
      (x ∈ s ∧ sendOk x = true) := by
  rw [spm_eq_of_some h]
  rw [foldDisconnect_registered _ reg s h x]
  simp only [List.mem_filter, Bool.not_eq_true, decide_eq_true_eq]
  constructor
  · rintro ⟨hxs, hxd⟩
    rcases hb : sendOk x with _ | _
    · exact absurd ⟨hxs, by simp [hb]⟩ hxd
    · exact ⟨hxs, rfl⟩
  · rintro ⟨hxs, hb⟩
    exact ⟨hxs, fun hc => by simp [hb] at hc⟩

/-- `send_personal_message` never touches another viewer's entry. -/
theorem spm_get_other {sendOk : Nat → Bool} {reg : Registry} {uid uid' : String}
    (h : uid' ≠ uid) :
    regGet (send_personal_message sendOk reg uid).1 uid' = regGet reg uid' := by
  cases hg : regGet reg uid with
  | none => rw [spm_eq_of_none hg]
  | some s =>
      rw [spm_eq_of_some hg]
      exact foldDisconnect_get_other h _ reg

/-- Unfolding `broadcastOver` on an empty key list. -/
theorem broadcastOver_nil (sendOk : Nat → Bool) (reg : Registry) :
    broadcastOver sendOk reg [] = (reg, []) := rfl

/-- Unfolding `broadcastOver` on a key list head. -/
theorem broadcastOver_cons (sendOk : Nat → Bool) (reg : Registry) (k : String)
    (K : List String) :
    broadcastOver sendOk reg (k :: K) =
      ((broadcastOver sendOk (send_personal_message sendOk reg k).1 K).1,
        (send_personal_message sendOk reg k).2.map (fun w => (k, w)) ++
          (broadcastOver sendOk (send_personal_message sendOk reg k).1 K).2) := rfl

/-- Broadcasting over keys that do not include a viewer leaves that
viewer's entry untouched. -/
theorem broadcastOver_get_of_not_mem {sendOk : Nat → Bool} {uid : String} :
    ∀ (K : List String) (reg : Registry), uid ∉ K →
      regGet (broadcastOver sendOk reg K).1 uid = regGet reg uid := by
  intro K
  induction K with
  | nil => intro reg _; rfl
  | cons k K ih =>
      intro reg hm
      rw [broadcastOver_cons]
      have hne : uid ≠ k := fun he => hm (he ▸ List.mem_cons_self k K)
      rw [ih _ (fun hc => hm (List.mem_cons_of_mem _ hc)), spm_get_other hne]

/-- Broadcasting over keys that do not include a viewer delivers nothing
tagged with that viewer. -/
theorem broadcastOver_snd_of_not_mem {sendOk : Nat → Bool} {uid : String} :
    ∀ (K : List String) (reg : Registry), uid ∉ K →
      ∀ w, (uid, w) ∉ (broadcastOver sendOk reg K).2 := by
  intro K
  induction K with
  | nil => intro reg _ w hc; simp [broadcastOver_nil] at hc
  | cons k K ih =>
      intro reg hm w hc
      rw [broadcastOver_cons] at hc
      rcases List.mem_append.mp hc with hc | hc
      · rcases List.mem_map.mp hc with ⟨w', _, he⟩
        have : k = uid := (Prod.mk.injEq .. ▸ he).1
        exact hm (this ▸ List.mem_cons_self k K)
      · exact ih _ (fun hc' => hm (List.mem_cons_of_mem _ hc')) w hc

/-- Main characterisation of a broadcast for one registered viewer: a
handle receives the message exactly when its send succeeds, and remains
registered afterwards exactly when its send succeeds. -/
theorem broadcastOver_main {sendOk : Nat → Bool} {uid : String} :
    ∀ (K : List String) (reg : Registry) (s : List Nat), K.Nodup → uid ∈ K →
      regGet reg uid = some s →
      (∀ x, wsRegistered (broadcastOver sendOk reg K).1 uid x ↔
        (x ∈ s ∧ sendOk x = true)) ∧
      (∀ x, (uid, x) ∈ (broadcastOver sendOk reg K).2 ↔
        (x ∈ s ∧ sendOk x = true)) := by
  intro K
  induction K with
  | nil => intro reg s _ hm; simp at hm
  | cons k K ih =>
      intro reg s hnd hm hg
      rw [List.nodup_cons] at hnd
      by_cases hk : uid = k
      · subst hk
        have hnm : uid ∉ K := hnd.1
        constructor
        · intro x
          rw [broadcastOver_cons]
          show wsRegistered (broadcastOver sendOk (send_personal_message sendOk reg uid).1 K).1 uid x ↔ _
          have hgu := @broadcastOver_get_of_not_mem sendOk uid K
            (send_personal_message sendOk reg uid).1 hnm
          constructor
          · rintro ⟨s', hs', hx⟩
            rw [hgu] at hs'
            exact (spm_registered hg x).mp ⟨s', hs', hx⟩
          · intro hx
            rcases (spm_registered hg x).mpr hx with ⟨s', hs', hxs⟩
            exact ⟨s', by rw [hgu]; exact hs', hxs⟩
        · intro x
          rw [broadcastOver_cons]
          show (uid, x) ∈ _ ++ _ ↔ _
          rw [List.mem_append]
          constructor
          · rintro (hc | hc)
            · rcases List.mem_map.mp hc with ⟨w', hw', he⟩
              have hx : w' = x := (Prod.mk.injEq .. ▸ he).2
              subst hx
              rw [spm_eq_of_some hg] at hw'
              simpa using List.mem_filter.mp hw'
            · exact absurd hc (broadcastOver_snd_of_not_mem K _ hnm x)
          · rintro ⟨hxs, hb⟩
            left
            apply List.mem_map.mpr
            refine ⟨x, ?_, rfl⟩
            rw [spm_eq_of_some hg]
            exact List.mem_filter.mpr ⟨hxs, hb⟩
      · have hm' : uid ∈ K := by
          rcases List.mem_cons.mp hm with he | hmem
          · exact absurd he hk
          · exact hmem
        have hg' : regGet (send_personal_message sendOk reg k).1 uid = some s := by
          rw [spm_get_other hk]
          exact hg
        have hres := ih (send_personal_message sendOk reg k).1 s hnd.2 hm' hg'
        constructor
        · intro x
          rw [broadcastOver_cons]
          exact hres.1 x
        · intro x
          rw [broadcastOver_cons]
          show (uid, x) ∈ _ ++ _ ↔ _
          rw [List.mem_append]
          constructor
          · rintro (hc | hc)
            · rcases List.mem_map.mp hc with ⟨w', _, he⟩
              exact absurd ((Prod.mk.injEq .. ▸ he).1.symm) hk
            · exact (hres.2 x).mp hc
          · intro hx
            exact Or.inr ((hres.2 x).mpr hx)

/-- C8: dead-connection isolation during `broadcast`. For every registry
with unique viewer keys and every registered handle, the broadcast
attempts the send on that handle independently of all others: the handle
receives the message exactly when its own send succeeds, and it remains
registered afterwards exactly when its own send succeeds — so one
handle's failure removes exactly that handle and never blocks delivery to
any other handle, of the same viewer or of any other. -/
theorem broadcast_isolation (sendOk : Nat → Bool) (reg : Registry)
    (hk : KeysNodup reg) (uid : String) (s : List Nat) (ws : Nat)
    (hget : regGet reg uid = some s) (hws : ws ∈ s) :
    ((uid, ws) ∈ (broadcast sendOk reg).2 ↔ sendOk ws = true) ∧
    (wsRegistered (broadcast sendOk reg).1 uid ws ↔ sendOk ws = true) := by
  have hmemK : uid ∈ reg.map Prod.fst :=
    List.mem_map.mpr ⟨(uid, s), PyDict.get_mem hget, rfl⟩
  have hmain := @broadcastOver_main sendOk uid (reg.map Prod.fst) reg s hk hmemK hget
  constructor
  · rw [show broadcast sendOk reg = broadcastOver sendOk reg (reg.map Prod.fst) from rfl]
    rw [hmain.2 ws]
    simp [hws]
  · rw [show broadcast sendOk reg = broadcastOver sendOk reg (reg.map Prod.fst) from rfl]
    rw [hmain.1 ws]
    simp [hws]

/-- Witness for C8 at the spec's own scenario: viewer `A` with handles 1
and 2, viewer `B` with handle 3, and the send to handle 1 failing. Handle
2 still receives the message and stays registered, handle 1 is removed. -/
theorem broadcast_isolation_witness :
    ((("A", (2 : Nat)) ∈ (broadcast (fun w => decide (w ≠ 1)) [("A", [1, 2]), ("B", [3])]).2 ↔
        decide ((2 : Nat) ≠ 1) = true) ∧
      (wsRegistered (broadcast (fun w => decide (w ≠ 1)) [("A", [1, 2]), ("B", [3])]).1 "A" 2 ↔
        decide ((2 : Nat) ≠ 1) = true)) ∧
    ((("B", (3 : Nat)) ∈ (broadcast (fun w => decide (w ≠ 1)) [("A", [1, 2]), ("B", [3])]).2 ↔
        decide ((3 : Nat) ≠ 1) = true) ∧
      (wsRegistered (broadcast (fun w => decide (w ≠ 1)) [("A", [1, 2]), ("B", [3])]).1 "B" 3 ↔
        decide ((3 : Nat) ≠ 1) = true)) ∧
    ((("A", (1 : Nat)) ∈ (broadcast (fun w => decide (w ≠ 1)) [("A", [1, 2]), ("B", [3])]).2 ↔
        decide ((1 : Nat) ≠ 1) = true) ∧
      (wsRegistered (broadcast (fun w => decide (w ≠ 1)) [("A", [1, 2]), ("B", [3])]).1 "A" 1 ↔
        decide ((1 : Nat) ≠ 1) = true)) :=
  ⟨broadcast_isolation (fun w => decide (w ≠ 1)) [("A", [1, 2]), ("B", [3])] (by decide)
      "A" [1, 2] 2 rfl (by decide),
   broadcast_isolation (fun w => decide (w ≠ 1)) [("A", [1, 2]), ("B", [3])] (by decide)
      "B" [3] 3 rfl (by decide),
   broadcast_isolation (fun w => decide (w ≠ 1)) [("A", [1, 2]), ("B", [3])] (by decide)
      "A" [1, 2] 1 rfl (by decide)⟩

end WebSocketMgr
